import Mathlib

/-!
Verification of the mddiff diff engine (`pkg/diff`), its data contracts
(`pkg/domain`) and the path-identity derivation it performs, as a shallow
embedding in Lean.  Go `int64` sizes are modelled as `Int` (all arithmetic the
engine performs on real file sizes, which are non-negative and below 2^63,
stays inside the `int64` range, so unbounded integers agree with the machine
semantics on every reachable input).  Go maps are modelled as association
lists in one iteration order together with last-write-wins lookup; theorems
quantify over all lists, hence over all iteration orders.
-/

namespace Mddiff

/-- Embedding of the Go struct `domain.Asset`: one filesystem entry with
relative path, filename stem, extension, size and directory flag. -/
structure Asset where
  Path : String
  Stem : String
  Extension : String
  Size : Int
  IsDir : Bool
  deriving DecidableEq

/-- Embedding of the Go struct `domain.DirectoryTree`: a root path plus the
scanned assets.  The Go field `Assets` is a `map[string]Asset` keyed by
relative path; it is modelled as the list of its entries in one iteration
order. -/
structure DirectoryTree where
  RootPath : String
  Assets : List (String × Asset)
  deriving DecidableEq

/-- Embedding of the Go string enum `domain.DiffType` with its three distinct
constants `MISSING`, `EXTRA`, `MODIFIED`. -/
inductive DiffType where
  | Missing
  | Extra
  | Modified
  deriving DecidableEq

/-- Embedding of the Go struct `domain.DiffItem`.  Field defaults are the Go
zero values used when a literal omits a field. -/
structure DiffItem where
  type : DiffType
  Path : String
  Reason : String := ""
  SrcSize : Int := 0
  TgtSize : Int := 0
  deriving DecidableEq

/-- Embedding of the anonymous `Summary` struct inside `domain.DiffReport`:
it has exactly the two counters `TotalMissing` and `TotalModified` (and in
particular no counter for EXTRA items). -/
structure Summary where
  TotalMissing : Nat
  TotalModified : Nat
  deriving DecidableEq

/-- Embedding of the Go struct `domain.DiffReport`. -/
structure DiffReport where
  SourceDir : String
  TargetDir : String
  Items : List DiffItem
  Summary : Summary
  deriving DecidableEq

/-- Embedding of the Go interface `domain.AssetComparator` (one method
`Compare(src, tgt Asset) (bool, string)`), as a function type. -/
def AssetComparator : Type := Asset → Asset → Bool × String

/-- Embedding of the Go struct `diff.BasicComparator` (V1 size+extension
comparison), carrying its configured size threshold. -/
structure BasicComparator where
  SizeThreshold : Int
  deriving DecidableEq

/-- Embedding of the Go method `BasicComparator.Compare`: extensions are
compared first with exact string equality; otherwise the absolute size
difference is compared against the threshold. -/
def BasicComparator.Compare (c : BasicComparator) (src tgt : Asset) : Bool × String :=
  if src.Extension ≠ tgt.Extension then
    (true, "Extension changed: " ++ src.Extension ++ " -> " ++ tgt.Extension)
  else
    let d := src.Size - tgt.Size
    let d := if d < 0 then -d else d
    if d > c.SizeThreshold then
      (true, "Size changed")
    else
      (false, "")

/-- An asset literal used to instantiate theorems with hypotheses. -/
def sampleMkv10 : Asset :=
  { Path := "v.mkv", Stem := "v", Extension := ".mkv", Size := 10, IsDir := false }

/-- An asset literal used to instantiate theorems with hypotheses. -/
def sampleMkv12 : Asset :=
  { Path := "v.mkv", Stem := "v", Extension := ".mkv", Size := 12, IsDir := false }

/-- An asset literal used to instantiate theorems with hypotheses. -/
def sampleMp4 : Asset :=
  { Path := "v.mp4", Stem := "v", Extension := ".mp4", Size := 99, IsDir := false }

/-- C3: for the BasicComparator with any non-negative threshold `T` and any
two assets with equal `Extension` fields, `Compare` returns not-modified with
empty reason when the absolute size difference is at most `T` (the boundary
`T` included), and modified with reason exactly "Size changed" when the
difference strictly exceeds `T`. -/
theorem C3_size_threshold (T : Int) (src tgt : Asset)
    (hT : 0 ≤ T) (hext : src.Extension = tgt.Extension) :
    (|src.Size - tgt.Size| ≤ T →
      BasicComparator.Compare ⟨T⟩ src tgt = (false, "")) ∧
    (T < |src.Size - tgt.Size| →
      BasicComparator.Compare ⟨T⟩ src tgt = (true, "Size changed")) := by
  have habs : (if src.Size - tgt.Size < 0 then -(src.Size - tgt.Size) else src.Size - tgt.Size)
      = |src.Size - tgt.Size| := by
    split
    · exact (abs_of_neg (by assumption)).symm
    · exact (abs_of_nonneg (not_lt.mp (by assumption))).symm
  have hc : BasicComparator.Compare ⟨T⟩ src tgt =
      if |src.Size - tgt.Size| > T then (true, "Size changed") else (false, "") := by
    unfold BasicComparator.Compare
    rw [if_neg (by simp [hext])]
    show (if (if src.Size - tgt.Size < 0 then -(src.Size - tgt.Size) else src.Size - tgt.Size) > T
        then (true, "Size changed") else (false, "")) = _
    rw [habs]
  rw [hc]
  constructor <;> intro h
  · rw [if_neg (not_lt.mpr h)]
  · rw [if_pos h]

/-- Witness for C3 at threshold 2 on two `.mkv` assets of sizes 10 and 12. -/
theorem C3_size_threshold_witness :
    ((0 : Int) ≤ 2 ∧ sampleMkv10.Extension = sampleMkv12.Extension) ∧
    ((|sampleMkv10.Size - sampleMkv12.Size| ≤ 2 →
        BasicComparator.Compare ⟨2⟩ sampleMkv10 sampleMkv12 = (false, "")) ∧
     (2 < |sampleMkv10.Size - sampleMkv12.Size| →
        BasicComparator.Compare ⟨2⟩ sampleMkv10 sampleMkv12 = (true, "Size changed"))) :=
  ⟨⟨by decide, rfl⟩, C3_size_threshold 2 sampleMkv10 sampleMkv12 (by decide) rfl⟩

/-- C4: whenever the two extensions differ (exact, case-sensitive string
comparison), `Compare` reports modified with the exact reason string
"Extension changed: src -> tgt", for every configured threshold and every
pair of sizes: the extension check runs first and short-circuits the size
check. -/
theorem C4_extension_short_circuit (c : BasicComparator) (src tgt : Asset)
    (hext : src.Extension ≠ tgt.Extension) :
    c.Compare src tgt =
      (true, "Extension changed: " ++ src.Extension ++ " -> " ++ tgt.Extension) := by
  unfold BasicComparator.Compare
  rw [if_pos hext]

/-- Witness for C4 on a `.mkv` asset versus a `.mp4` asset. -/
theorem C4_extension_short_circuit_witness :
    sampleMkv10.Extension ≠ sampleMp4.Extension ∧
    BasicComparator.Compare ⟨0⟩ sampleMkv10 sampleMp4 =
      (true, "Extension changed: " ++ sampleMkv10.Extension ++ " -> " ++ sampleMp4.Extension) :=
  ⟨by decide, C4_extension_short_circuit ⟨0⟩ sampleMkv10 sampleMp4 (by decide)⟩

/-- C9: the modified verdict of the BasicComparator is symmetric: for every
threshold and all assets `a`, `b`, the boolean component of `Compare a b`
equals that of `Compare b a` (only the reason string may differ). -/
theorem C9_compare_symmetric (c : BasicComparator) (a b : Asset) :
    (c.Compare a b).1 = (c.Compare b a).1 := by
  by_cases hext : a.Extension = b.Extension
  · have key : ∀ x y : Asset, x.Extension = y.Extension →
        c.Compare x y = if (if x.Size - y.Size < 0 then -(x.Size - y.Size) else x.Size - y.Size)
          > c.SizeThreshold then (true, "Size changed") else (false, "") := by
      intro x y hxy
      unfold BasicComparator.Compare
      rw [if_neg (by simp [hxy])]
    rw [key a b hext, key b a hext.symm]
    have harg : (if a.Size - b.Size < 0 then -(a.Size - b.Size) else a.Size - b.Size)
        = (if b.Size - a.Size < 0 then -(b.Size - a.Size) else b.Size - a.Size) := by
      split <;> split <;> omega
    rw [harg]
  · unfold BasicComparator.Compare
    rw [if_pos hext, if_pos (Ne.symm hext)]

/-!
Path manipulation.  `makeIdentity` in `pkg/diff` calls the Go standard
library functions `filepath.Dir` and `filepath.Join`, which on the
slash-separated representation are defined in terms of `filepath.Clean`.
They are embedded below on `List Char`, following the Go stdlib's documented
lexical algorithm: split on the separator, drop empty and "." components,
resolve ".." against the component stack (a leading ".." is kept for relative
paths and dropped for rooted ones), and rejoin.
-/

/-- Splits a character list at every occurrence of the separator character
into the list of components, the way Go's path routines view a path. -/
def splitSlash : List Char → List (List Char)
  | [] => [[]]
  | c :: cs =>
    match splitSlash cs with
    | [] => [[]]
    | p :: ps => if c = '/' then [] :: p :: ps else (c :: p) :: ps

/-- Rejoins components with the separator character; inverse of
`splitSlash`. -/
def joinSlash : List (List Char) → List Char
  | [] => []
  | [p] => p
  | p :: ps => p ++ '/' :: joinSlash ps

/-- One step of Go `filepath.Clean`'s component processing, acting on the
stack of output components (most recent first): empty and "." components are
dropped; ".." pops a component when possible (for a rooted path it can never
go above the root, for a relative path it is kept when only ".." components
have been emitted); every other component is pushed. -/
def cleanStep (rooted : Bool) (stack : List (List Char)) (c : List Char) : List (List Char) :=
  if c = [] ∨ c = ['.'] then stack
  else if c = ['.', '.'] then
    match stack with
    | [] => if rooted then [] else [['.', '.']]
    | top :: rest => if !rooted ∧ top = ['.', '.'] then ['.', '.'] :: top :: rest else rest
  else c :: stack

/-- Embedding of Go `filepath.Clean` for slash-separated paths: the shortest
lexically equivalent path ("." for an empty result, the root for a rooted
path that resolves to it). -/
def Clean (path : String) : String :=
  if path = "" then "."
  else
    let rooted := path.data.head? == some '/'
    let stack := ((splitSlash path.data).foldl (cleanStep rooted) []).reverse
    if rooted then ⟨'/' :: joinSlash stack⟩
    else if stack = [] then "." else ⟨joinSlash stack⟩

/-- Embedding of Go `filepath.Dir`: everything up to and including the final
separator (empty if there is none), cleaned; "." for a path without a
separator. -/
def Dir (path : String) : String :=
  Clean ⟨(path.data.reverse.dropWhile (fun c => c ≠ '/')).reverse⟩

/-- Embedding of Go `filepath.Join` restricted to the two arguments the
repository passes: the first non-empty argument onward, joined with the
separator and cleaned; empty when both arguments are empty. -/
def Join (a b : String) : String :=
  if a ≠ "" then Clean (a ++ "/" ++ b)
  else if b ≠ "" then Clean b
  else ""

/-- Embedding of `diff.makeIdentity`: the identity key of an asset, its
parent directory joined with its stem, the stem alone when the parent is the
current-directory marker. -/
def makeIdentity (relPath stem : String) : String :=
  let dir := Dir relPath
  if dir = "." then stem else Join dir stem

example : Clean "a/" = "a" := by decide
example : Clean "" = "." := by decide
example : Clean "a//b/./c/../d" = "a/b/d" := by decide
example : Clean "../../x" = "../../x" := by decide
example : Clean "/a/../../b" = "/b" := by decide
example : Dir "a/b/c.mkv" = "a/b" := by decide
example : Dir "c.mkv" = "." := by decide
example : Join "a" "" = "a" := by decide
example : makeIdentity "subdir/Movie.mkv" "Movie" = "subdir/Movie" := by decide
example : makeIdentity "Movie.mkv" "Movie" = "Movie" := by decide

/-!
The diff engine (`pkg/diff`, `Engine.Diff`).  The Go code first builds
`targetIndex`, a `map[string]Asset` from identity key to target asset where a
later map write overwrites an earlier one; since the index is only written
while indexing and only read afterwards, it is embedded as the last-write-wins
lookup function `targetIndex` over the target entry list.  The set-valued map
`processedTargets` (only ever set to `true`) is embedded as the list of keys
inserted so far, queried by membership.
-/

/-- Last-write-wins lookup in the index the engine builds from identity key
to target asset over all target entries. -/
def targetIndex (target : List (String × Asset)) (k : String) : Option Asset :=
  (target.reverse.find? (fun e => makeIdentity e.1 e.2.Stem == k)).map (fun e => e.2)

/-- The mutable state of `Engine.Diff`'s source loop: the items accumulated
so far, the two summary counters, and the identity keys recorded in
`processedTargets`. -/
structure DiffState where
  items : List DiffItem
  TotalMissing : Nat
  TotalModified : Nat
  processed : List String

/-- One iteration of the source loop of `Engine.Diff`: probe the target
index with the source asset's identity key; on a miss append a MISSING item
and bump the missing counter; on a hit mark the key as processed, invoke the
comparator, and append a MODIFIED item (bumping the modified counter) exactly
when it reports modified. -/
def srcStep (comparator : AssetComparator) (target : List (String × Asset))
    (st : DiffState) (e : String × Asset) : DiffState :=
  let id := makeIdentity e.1 e.2.Stem
  match targetIndex target id with
  | none =>
      { st with
        items := st.items ++ [{ type := DiffType.Missing, Path := e.2.Path, SrcSize := e.2.Size }]
        TotalMissing := st.TotalMissing + 1 }
  | some tgtAsset =>
      let st := { st with processed := id :: st.processed }
      let res := comparator e.2 tgtAsset
      if res.1 then
        { st with
          items := st.items ++ [{ type := DiffType.Modified, Path := e.2.Path, Reason := res.2,
                                  SrcSize := e.2.Size, TgtSize := tgtAsset.Size }]
          TotalModified := st.TotalModified + 1 }
      else st

/-- One iteration of the target loop of `Engine.Diff`: append an EXTRA item
for the target asset unless its identity key was processed during the source
loop. -/
def extraStep (processed : List String) (items : List DiffItem) (e : String × Asset) :
    List DiffItem :=
  let id := makeIdentity e.1 e.2.Stem
  if processed.contains id then items
  else items ++ [{ type := DiffType.Extra, Path := e.2.Path, TgtSize := e.2.Size }]

/-- Embedding of the Go struct `diff.Engine`, holding the comparator the
engine was created with. -/
structure Engine where
  comparator : AssetComparator

/-- Embedding of the Go method `Engine.Diff`: index the target assets by
identity key, run the source loop (MISSING / MODIFIED), then the target loop
(EXTRA), and return the report with the accumulated counters. -/
def Engine.Diff (eng : Engine) (source target : DirectoryTree) : DiffReport :=
  let st := source.Assets.foldl (srcStep eng.comparator target.Assets) ⟨[], 0, 0, []⟩
  let items := target.Assets.foldl (extraStep st.processed) st.items
  { SourceDir := source.RootPath
    TargetDir := target.RootPath
    Items := items
    Summary := ⟨st.TotalMissing, st.TotalModified⟩ }

/-- The engine wired in `cmd` (`NewEngine(&BasicComparator{SizeThreshold: 0})`). -/
def basicEngine : Engine :=
  ⟨fun a b => BasicComparator.Compare ⟨0⟩ a b⟩

example :
    (basicEngine.Diff
      ⟨"s", [("missing.mkv", ⟨"missing.mkv", "missing", ".mkv", 7, false⟩),
             ("movie.mkv", ⟨"movie.mkv", "movie", ".mkv", 7, false⟩)]⟩
      ⟨"t", [("extra.mkv", ⟨"extra.mkv", "extra", ".mkv", 7, false⟩),
             ("movie.mp4", ⟨"movie.mp4", "movie", ".mp4", 7, false⟩)]⟩).Items =
    [{ type := DiffType.Missing, Path := "missing.mkv", SrcSize := 7 },
     { type := DiffType.Modified, Path := "movie.mkv",
       Reason := "Extension changed: .mkv -> .mp4", SrcSize := 7, TgtSize := 7 },
     { type := DiffType.Extra, Path := "extra.mkv", TgtSize := 7 }] := by decide

/-!
Characterization of the two loops of `Engine.Diff` as `filterMap`s, proved by
induction on the iteration lists.
-/

/-- The item (if any) that the source loop of `Engine.Diff` emits for one
source entry: a MISSING item on an index miss, a MODIFIED item on a hit the
comparator flags, nothing on an unmodified hit. -/
def sourceItem (cmp : AssetComparator) (target : List (String × Asset))
    (e : String × Asset) : Option DiffItem :=
  match targetIndex target (makeIdentity e.1 e.2.Stem) with
  | none => some { type := DiffType.Missing, Path := e.2.Path, SrcSize := e.2.Size }
  | some t =>
      if (cmp e.2 t).1 then
        some { type := DiffType.Modified, Path := e.2.Path, Reason := (cmp e.2 t).2,
               SrcSize := e.2.Size, TgtSize := t.Size }
      else none

/-- The item (if any) that the target loop of `Engine.Diff` emits for one
target entry, given the processed-key set left by the source loop. -/
def extraItem (processed : List String) (e : String × Asset) : Option DiffItem :=
  if processed.contains (makeIdentity e.1 e.2.Stem) then none
  else some { type := DiffType.Extra, Path := e.2.Path, TgtSize := e.2.Size }

/-- The processed-key set left by the source loop of `Engine.Diff`. -/
def processedKeys (cmp : AssetComparator) (src target : List (String × Asset)) : List String :=
  (src.foldl (srcStep cmp target) ⟨[], 0, 0, []⟩).processed

theorem srcStep_items (cmp : AssetComparator) (target : List (String × Asset))
    (st : DiffState) (e : String × Asset) :
    (srcStep cmp target st e).items = st.items ++ (sourceItem cmp target e).toList := by
  unfold srcStep sourceItem
  cases h : targetIndex target (makeIdentity e.1 e.2.Stem) <;> simp only [h]
  · rfl
  · split <;> simp

theorem srcStep_missing (cmp : AssetComparator) (target : List (String × Asset))
    (st : DiffState) (e : String × Asset) :
    (srcStep cmp target st e).TotalMissing =
      st.TotalMissing +
        ((sourceItem cmp target e).toList.countP fun i => decide (i.type = DiffType.Missing)) := by
  unfold srcStep sourceItem
  cases h : targetIndex target (makeIdentity e.1 e.2.Stem) <;> simp only [h]
  · simp
  · split <;> simp

theorem srcStep_modified (cmp : AssetComparator) (target : List (String × Asset))
    (st : DiffState) (e : String × Asset) :
    (srcStep cmp target st e).TotalModified =
      st.TotalModified +
        ((sourceItem cmp target e).toList.countP fun i => decide (i.type = DiffType.Modified)) := by
  unfold srcStep sourceItem
  cases h : targetIndex target (makeIdentity e.1 e.2.Stem) <;> simp only [h]
  · simp
  · split <;> simp

theorem srcStep_processed (cmp : AssetComparator) (target : List (String × Asset))
    (st : DiffState) (e : String × Asset) (k : String) :
    k ∈ (srcStep cmp target st e).processed ↔
      k ∈ st.processed ∨
        (makeIdentity e.1 e.2.Stem = k ∧ (targetIndex target (makeIdentity e.1 e.2.Stem)).isSome) := by
  unfold srcStep
  cases h : targetIndex target (makeIdentity e.1 e.2.Stem) <;> simp only [h]
  · simp
  · split <;> simp [List.mem_cons, or_comm, eq_comm]

theorem srcFold_items (cmp : AssetComparator) (target : List (String × Asset)) :
    ∀ (src : List (String × Asset)) (st : DiffState),
      (src.foldl (srcStep cmp target) st).items =
        st.items ++ src.filterMap (sourceItem cmp target)
  | [], st => by simp
  | e :: src, st => by
      rw [List.foldl_cons, srcFold_items cmp target src _, srcStep_items, List.filterMap_cons]
      cases h : sourceItem cmp target e <;> simp [h]

theorem srcFold_missing (cmp : AssetComparator) (target : List (String × Asset)) :
    ∀ (src : List (String × Asset)) (st : DiffState),
      (src.foldl (srcStep cmp target) st).TotalMissing =
        st.TotalMissing +
          ((src.filterMap (sourceItem cmp target)).countP fun i => decide (i.type = DiffType.Missing))
  | [], st => by simp
  | e :: src, st => by
      rw [List.foldl_cons, srcFold_missing cmp target src _, srcStep_missing, List.filterMap_cons]
      cases h : sourceItem cmp target e <;> simp [h, List.countP_cons] <;> omega

theorem srcFold_modified (cmp : AssetComparator) (target : List (String × Asset)) :
    ∀ (src : List (String × Asset)) (st : DiffState),
      (src.foldl (srcStep cmp target) st).TotalModified =
        st.TotalModified +
          ((src.filterMap (sourceItem cmp target)).countP fun i => decide (i.type = DiffType.Modified))
  | [], st => by simp
  | e :: src, st => by
      rw [List.foldl_cons, srcFold_modified cmp target src _, srcStep_modified, List.filterMap_cons]
      cases h : sourceItem cmp target e <;> simp [h, List.countP_cons] <;> omega

theorem srcFold_processed (cmp : AssetComparator) (target : List (String × Asset)) :
    ∀ (src : List (String × Asset)) (st : DiffState) (k : String),
      k ∈ (src.foldl (srcStep cmp target) st).processed ↔
        k ∈ st.processed ∨
          ∃ e ∈ src,
            makeIdentity e.1 e.2.Stem = k ∧ (targetIndex target (makeIdentity e.1 e.2.Stem)).isSome
  | [], st, k => by simp
  | e :: src, st, k => by
      rw [List.foldl_cons, srcFold_processed cmp target src _ k, srcStep_processed]
      simp only [List.mem_cons]
      constructor
      · rintro ((h | h) | h)
        · exact Or.inl h
        · exact Or.inr ⟨e, Or.inl rfl, h⟩
        · rcases h with ⟨x, hx, hk⟩
          exact Or.inr ⟨x, Or.inr hx, hk⟩
      · rintro (h | ⟨x, hx | hx, hk⟩)
        · exact Or.inl (Or.inl h)
        · exact Or.inl (Or.inr (hx ▸ hk))
        · exact Or.inr ⟨x, hx, hk⟩

theorem extraFold_items (processed : List String) :
    ∀ (target : List (String × Asset)) (items : List DiffItem),
      (target.foldl (extraStep processed) items) =
        items ++ target.filterMap (extraItem processed)
  | [], items => by simp
  | e :: target, items => by
      rw [List.foldl_cons, extraFold_items processed target _, List.filterMap_cons]
      unfold extraStep extraItem
      split <;> simp_all

/-- The items of a report: the source loop's `filterMap` followed by the
target loop's `filterMap`. -/
theorem Diff_Items_eq (eng : Engine) (source target : DirectoryTree) :
    (eng.Diff source target).Items =
      source.Assets.filterMap (sourceItem eng.comparator target.Assets) ++
        target.Assets.filterMap
          (extraItem (processedKeys eng.comparator source.Assets target.Assets)) := by
  simp only [Engine.Diff, processedKeys]
  rw [extraFold_items, srcFold_items]
  simp

/-- The summary of a report: the missing and modified counters accumulated by
the source loop. -/
theorem Diff_Summary_eq (eng : Engine) (source target : DirectoryTree) :
    (eng.Diff source target).Summary =
      ⟨(source.Assets.filterMap (sourceItem eng.comparator target.Assets)).countP
          (fun i => decide (i.type = DiffType.Missing)),
       (source.Assets.filterMap (sourceItem eng.comparator target.Assets)).countP
          (fun i => decide (i.type = DiffType.Modified))⟩ := by
  simp only [Engine.Diff]
  rw [Summary.mk.injEq]
  exact ⟨by rw [srcFold_missing]; simp, by rw [srcFold_modified]; simp⟩

theorem sourceItem_type (cmp : AssetComparator) (target : List (String × Asset))
    (e : String × Asset) (i : DiffItem) (h : sourceItem cmp target e = some i) :
    i.type = DiffType.Missing ∨ i.type = DiffType.Modified := by
  unfold sourceItem at h
  rcases ht : targetIndex target (makeIdentity e.1 e.2.Stem) with _ | t <;> rw [ht] at h
  · exact Or.inl (by cases h; rfl)
  · simp only at h
    split at h
    · exact Or.inr (by cases h; rfl)
    · cases h

theorem extraItem_type (processed : List String) (e : String × Asset) (i : DiffItem)
    (h : extraItem processed e = some i) : i.type = DiffType.Extra := by
  unfold extraItem at h
  split at h
  · cases h
  · cases h; rfl

/-- C2: in every report `Diff` returns, the summary is exactly the pair of
the number of MISSING items and the number of MODIFIED items in the item
list; the summary consists of those two counters only, so no count of EXTRA
items appears in it. -/
theorem C2_summary_counts (eng : Engine) (source target : DirectoryTree) :
    (eng.Diff source target).Summary =
      ⟨(eng.Diff source target).Items.countP (fun i => decide (i.type = DiffType.Missing)),
       (eng.Diff source target).Items.countP (fun i => decide (i.type = DiffType.Modified))⟩ := by
  rw [Diff_Summary_eq, Diff_Items_eq, List.countP_append, List.countP_append]
  have h1 : (target.Assets.filterMap
      (extraItem (processedKeys eng.comparator source.Assets target.Assets))).countP
        (fun i => decide (i.type = DiffType.Missing)) = 0 := by
    rw [List.countP_eq_zero]
    intro i hi
    rcases List.mem_filterMap.mp hi with ⟨e, _, he⟩
    simp [extraItem_type _ _ _ he]
  have h2 : (target.Assets.filterMap
      (extraItem (processedKeys eng.comparator source.Assets target.Assets))).countP
        (fun i => decide (i.type = DiffType.Modified)) = 0 := by
    rw [List.countP_eq_zero]
    intro i hi
    rcases List.mem_filterMap.mp hi with ⟨e, _, he⟩
    simp [extraItem_type _ _ _ he]
  rw [h1, h2]
  simp

/-- C7: in every report `Diff` returns, the item list splits into a prefix
consisting only of source-driven items (type MISSING or MODIFIED) followed by
a suffix consisting only of EXTRA items, so no EXTRA item ever precedes a
MISSING or MODIFIED item. -/
theorem C7_source_items_before_extras (eng : Engine) (source target : DirectoryTree) :
    ∃ A B, (eng.Diff source target).Items = A ++ B ∧
      (∀ i ∈ A, i.type = DiffType.Missing ∨ i.type = DiffType.Modified) ∧
      (∀ i ∈ B, i.type = DiffType.Extra) := by
  refine ⟨_, _, Diff_Items_eq eng source target, ?_, ?_⟩
  · intro i hi
    rcases List.mem_filterMap.mp hi with ⟨e, _, he⟩
    exact sourceItem_type _ _ _ _ he
  · intro i hi
    rcases List.mem_filterMap.mp hi with ⟨e, _, he⟩
    exact extraItem_type _ _ _ he

/-- C8: `Diff` is a total function of its inputs: for every comparator and
every pair of inventories it returns a report, whose roots echo the input
roots and whose item list is bounded by the sizes of the two inventories;
there is no error path (the embedding is a total Lean function). -/
theorem C8_diff_total (eng : Engine) (source target : DirectoryTree) :
    ∃ r : DiffReport, eng.Diff source target = r ∧
      r.SourceDir = source.RootPath ∧ r.TargetDir = target.RootPath ∧
      r.Items.length ≤ source.Assets.length + target.Assets.length := by
  refine ⟨_, rfl, rfl, rfl, ?_⟩
  rw [Diff_Items_eq, List.length_append]
  exact Nat.add_le_add (List.length_filterMap_le _ _) (List.length_filterMap_le _ _)

/-!
Well-formed inventories and uniqueness of emitted items.  `LinearScanner.Scan`
stores every asset under its relative path (`assets[relPath] = asset` with
`asset.Path = relPath`), so an inventory's keys are pairwise distinct and each
asset's `Path` field equals its key.
-/

/-- An inventory as the scanner produces it: distinct keys, and every asset
records its own key in its `Path` field. -/
def WellFormed (t : DirectoryTree) : Prop :=
  (t.Assets.map Prod.fst).Nodup ∧ ∀ e ∈ t.Assets, e.2.Path = e.1

instance (t : DirectoryTree) : Decidable (WellFormed t) := by
  unfold WellFormed
  exact instDecidableAnd

theorem nodupKeys_eq_of_mem {l : List (String × Asset)} (h : (l.map Prod.fst).Nodup)
    {p : String} {a b : Asset} (ha : (p, a) ∈ l) (hb : (p, b) ∈ l) : a = b := by
  induction l with
  | nil => cases ha
  | cons e l ih =>
      rw [List.map_cons, List.nodup_cons] at h
      rcases List.mem_cons.mp ha with h1 | h1 <;> rcases List.mem_cons.mp hb with h2 | h2
      · rw [← h1] at h2; exact (Prod.mk.injEq _ _ _ _ ▸ h2).2.symm
      · exact absurd (List.mem_map.mpr ⟨(p, b), h2, by rw [← h1]⟩) h.1
      · exact absurd (List.mem_map.mpr ⟨(p, a), h1, by rw [← h2]⟩) h.1
      · exact ih h.2 h1 h2

/-- In a well-formed inventory the `Path` field determines the entry. -/
theorem wf_path_determines {t : DirectoryTree} (hwf : WellFormed t)
    {p q : String} {a b : Asset} (ha : (p, a) ∈ t.Assets) (hb : (q, b) ∈ t.Assets)
    (hpath : a.Path = b.Path) : p = q ∧ a = b := by
  have hp : a.Path = p := hwf.2 (p, a) ha
  have hq : b.Path = q := hwf.2 (q, b) hb
  have hpq : p = q := by rw [← hp, hpath, hq]
  subst hpq
  exact ⟨rfl, nodupKeys_eq_of_mem hwf.1 ha hb⟩

theorem targetIndex_eq_none {target : List (String × Asset)} {k : String} :
    targetIndex target k = none ↔ ∀ e ∈ target, makeIdentity e.1 e.2.Stem ≠ k := by
  unfold targetIndex
  rw [Option.map_eq_none', List.find?_eq_none]
  constructor
  · intro h e he
    have := h e (List.mem_reverse.mpr he)
    simpa using this
  · intro h e he
    have := h e (List.mem_reverse.mp he)
    simpa using this

theorem targetIndex_isSome {target : List (String × Asset)} {k : String} :
    (targetIndex target k).isSome ↔ ∃ e ∈ target, makeIdentity e.1 e.2.Stem = k := by
  unfold targetIndex
  rw [Option.isSome_map', List.find?_isSome]
  constructor
  · rintro ⟨e, he, hp⟩
    exact ⟨e, List.mem_reverse.mp he, by simpa using hp⟩
  · rintro ⟨e, he, hp⟩
    exact ⟨e, List.mem_reverse.mpr he, by simpa using hp⟩

/-- Membership in the processed-key set: exactly the identity keys of source
entries that found a match in the target index. -/
theorem processedKeys_mem (cmp : AssetComparator) (src target : List (String × Asset))
    (k : String) :
    k ∈ processedKeys cmp src target ↔
      ∃ e ∈ src, makeIdentity e.1 e.2.Stem = k ∧
        ∃ e2 ∈ target, makeIdentity e2.1 e2.2.Stem = makeIdentity e.1 e.2.Stem := by
  unfold processedKeys
  rw [srcFold_processed]
  simp only [List.not_mem_nil, false_or]
  constructor
  · rintro ⟨e, he, hk, hs⟩
    rcases targetIndex_isSome.mp hs with ⟨e2, he2, hk2⟩
    exact ⟨e, he, hk, e2, he2, by rw [hk2, hk]⟩
  · rintro ⟨e, he, hk, e2, he2, hk2⟩
    exact ⟨e, he, hk, targetIndex_isSome.mpr ⟨e2, he2, by rw [hk2]⟩⟩

theorem countP_filterMap_some {α β : Type} [DecidableEq β] (f : α → Option β)
    (l : List α) (b0 : β) :
    (l.filterMap f).countP (fun i => decide (i = b0)) =
      l.countP (fun e => decide (f e = some b0)) := by
  induction l with
  | nil => rfl
  | cons a l ih =>
      rw [List.filterMap_cons]
      cases h : f a with
      | none => rw [List.countP_cons, ih]; simp [h]
      | some b => rw [List.countP_cons, List.countP_cons, ih]; simp [h]

theorem countP_eq_one_of_unique {α : Type} {l : List α} {p : α → Bool} {e0 : α}
    (hn : l.Nodup) (he : e0 ∈ l) (hp : p e0 = true)
    (hu : ∀ e ∈ l, p e = true → e = e0) : l.countP p = 1 := by
  induction l with
  | nil => cases he
  | cons a l ih =>
      rw [List.nodup_cons] at hn
      rcases List.mem_cons.mp he with rfl | he'
      · rw [List.countP_cons_of_pos _ _ hp]
        have : l.countP p = 0 := by
          rw [List.countP_eq_zero]
          intro x hx hpx
          exact hn.1 ((hu x (List.mem_cons_of_mem _ hx) hpx) ▸ hx)
        rw [this]
      · have ha : p a = false := by
          rcases h : p a with _ | _
          · rfl
          · exact absurd (hu a (List.mem_cons_self _ _) h ▸ he') hn.1
        rw [List.countP_cons_of_neg _ _ (by simp [ha])]
        exact ih hn.2 he' (fun e he h => hu e (List.mem_cons_of_mem _ he) h)

theorem contains_eq_false_of_not_mem {l : List String} {k : String} (h : k ∉ l) :
    l.contains k = false := by
  simpa using h

/-- A source asset whose identity key matches no target entry contributes
exactly one item to the report: the MISSING item carrying its path and
size. -/
theorem diff_missing_count_one (eng : Engine) (source target : DirectoryTree)
    (hwf : WellFormed source) {p : String} {a : Asset}
    (hmem : (p, a) ∈ source.Assets)
    (hnomatch : ∀ e ∈ target.Assets, makeIdentity e.1 e.2.Stem ≠ makeIdentity p a.Stem) :
    (eng.Diff source target).Items.countP
      (fun i => decide (i = { type := DiffType.Missing, Path := a.Path, SrcSize := a.Size })) = 1 := by
  rw [Diff_Items_eq, List.countP_append]
  have hB : (target.Assets.filterMap
      (extraItem (processedKeys eng.comparator source.Assets target.Assets))).countP
      (fun i => decide (i = { type := DiffType.Missing, Path := a.Path, SrcSize := a.Size })) = 0 := by
    rw [List.countP_eq_zero]
    intro i hi
    rcases List.mem_filterMap.mp hi with ⟨e, _, he⟩
    have ht := extraItem_type _ _ _ he
    simp only [decide_eq_true_eq]
    intro hcontra
    rw [hcontra] at ht
    simp at ht
  have hA : (source.Assets.filterMap (sourceItem eng.comparator target.Assets)).countP
      (fun i => decide (i = { type := DiffType.Missing, Path := a.Path, SrcSize := a.Size })) = 1 := by
    rw [countP_filterMap_some]
    apply countP_eq_one_of_unique (List.Nodup.of_map Prod.fst hwf.1) hmem
    · rw [decide_eq_true_eq]
      unfold sourceItem
      rw [targetIndex_eq_none.mpr hnomatch]
    · rintro ⟨q, b⟩ he hpe
      rw [decide_eq_true_eq] at hpe
      unfold sourceItem at hpe
      rcases ht : targetIndex target.Assets (makeIdentity (q, b).1 (q, b).2.Stem) with _ | t <;>
        rw [ht] at hpe
      · simp only [Option.some.injEq, DiffItem.mk.injEq] at hpe
        rcases wf_path_determines hwf he hmem hpe.2.1 with ⟨hq, hb⟩
        rw [hq, hb]
      · simp only at hpe
        split at hpe
        · simp only [Option.some.injEq, DiffItem.mk.injEq] at hpe
          exact absurd hpe.1 (by decide)
        · cases hpe
  rw [hA, hB]

/-- A target asset whose identity key matches no source entry contributes
exactly one item to the report: the EXTRA item carrying its path and
size. -/
theorem diff_extra_count_one (eng : Engine) (source target : DirectoryTree)
    (hwf : WellFormed target) {q : String} {b : Asset}
    (hmem : (q, b) ∈ target.Assets)
    (hnomatch : ∀ e ∈ source.Assets, makeIdentity e.1 e.2.Stem ≠ makeIdentity q b.Stem) :
    (eng.Diff source target).Items.countP
      (fun i => decide (i = { type := DiffType.Extra, Path := b.Path, TgtSize := b.Size })) = 1 := by
  rw [Diff_Items_eq, List.countP_append]
  have hA : (source.Assets.filterMap (sourceItem eng.comparator target.Assets)).countP
      (fun i => decide (i = { type := DiffType.Extra, Path := b.Path, TgtSize := b.Size })) = 0 := by
    rw [List.countP_eq_zero]
    intro i hi
    rcases List.mem_filterMap.mp hi with ⟨e, _, he⟩
    have ht := sourceItem_type _ _ _ _ he
    simp only [decide_eq_true_eq]
    intro hcontra
    rw [hcontra] at ht
    rcases ht with h | h <;> simp at h
  have hproc : makeIdentity q b.Stem ∉ processedKeys eng.comparator source.Assets target.Assets := by
    rw [processedKeys_mem]
    rintro ⟨e, he, hk, -⟩
    exact hnomatch e he hk
  have hB : (target.Assets.filterMap
      (extraItem (processedKeys eng.comparator source.Assets target.Assets))).countP
      (fun i => decide (i = { type := DiffType.Extra, Path := b.Path, TgtSize := b.Size })) = 1 := by
    rw [countP_filterMap_some]
    apply countP_eq_one_of_unique (List.Nodup.of_map Prod.fst hwf.1) hmem
    · rw [decide_eq_true_eq]
      unfold extraItem
      rw [if_neg (by rw [contains_eq_false_of_not_mem hproc]; exact Bool.false_ne_true)]
    · rintro ⟨r, c⟩ he hpe
      rw [decide_eq_true_eq] at hpe
      unfold extraItem at hpe
      split at hpe
      · cases hpe
      · simp only [Option.some.injEq, DiffItem.mk.injEq] at hpe
        rcases wf_path_determines hwf he hmem hpe.2.1 with ⟨hr, hc⟩
        rw [hr, hc]
  rw [hA, hB]

/-- C10: when two target assets collide on one identity key (so the index
keeps only the winner) and some source asset carries that key, the report
contains no EXTRA item for either target asset: the key is marked consumed
once, so the losing asset is neither compared nor reported. -/
theorem C10_collision_consumed (eng : Engine) (source target : DirectoryTree)
    (hwf : WellFormed target)
    (q1 q2 psrc : String) (b1 b2 asrc : Asset)
    (h1 : (q1, b1) ∈ target.Assets) (h2 : (q2, b2) ∈ target.Assets)
    (hkey : makeIdentity q1 b1.Stem = makeIdentity q2 b2.Stem)
    (hs : (psrc, asrc) ∈ source.Assets)
    (hsk : makeIdentity psrc asrc.Stem = makeIdentity q1 b1.Stem) :
    ∀ i ∈ (eng.Diff source target).Items, i.type = DiffType.Extra →
      i.Path ≠ b1.Path ∧ i.Path ≠ b2.Path := by
  intro i hi hextra
  rw [Diff_Items_eq] at hi
  rcases List.mem_append.mp hi with hiA | hiB
  · rcases List.mem_filterMap.mp hiA with ⟨e, _, he⟩
    rcases sourceItem_type _ _ _ _ he with h | h <;> rw [hextra] at h <;> exact absurd h (by decide)
  · rcases List.mem_filterMap.mp hiB with ⟨⟨r, c⟩, hrc, he⟩
    unfold extraItem at he
    split at he
    · cases he
    · rename_i hnp
      simp only [Option.some.injEq] at he
      have hpath : i.Path = c.Path := by rw [← he]
      have hproc : makeIdentity r c.Stem ∈
          processedKeys eng.comparator source.Assets target.Assets →
          (false : Bool) = true → False := fun _ h => by cases h
      constructor
      · intro hcontra
        have heq := wf_path_determines hwf hrc h1 (by rw [← hpath, hcontra])
        apply hnp
        rw [heq.1, heq.2]
        have hm : makeIdentity q1 b1.Stem ∈
            processedKeys eng.comparator source.Assets target.Assets :=
          (processedKeys_mem _ _ _ _).mpr ⟨(psrc, asrc), hs, hsk, (q1, b1), h1, hsk.symm ▸ rfl⟩
        simp [hm]
      · intro hcontra
        have heq := wf_path_determines hwf hrc h2 (by rw [← hpath, hcontra])
        apply hnp
        rw [heq.1, heq.2]
        have hm : makeIdentity q2 b2.Stem ∈
            processedKeys eng.comparator source.Assets target.Assets :=
          (processedKeys_mem _ _ _ _).mpr
            ⟨(psrc, asrc), hs, hsk.trans hkey, (q2, b2), h2, (hsk.trans hkey).symm ▸ rfl⟩
        simp [hm]

/-- A target asset used to instantiate theorems with hypotheses. -/
def tgtXmkv : Asset := { Path := "x.mkv", Stem := "x", Extension := ".mkv", Size := 1, IsDir := false }

/-- A target asset used to instantiate theorems with hypotheses. -/
def tgtXmp4 : Asset := { Path := "x.mp4", Stem := "x", Extension := ".mp4", Size := 2, IsDir := false }

/-- A source asset used to instantiate theorems with hypotheses. -/
def srcXavi : Asset := { Path := "x.avi", Stem := "x", Extension := ".avi", Size := 3, IsDir := false }

/-- A one-file source inventory whose asset collides on identity key with
both target assets of `collisionTarget`. -/
def collisionSource : DirectoryTree := ⟨"s", [("x.avi", srcXavi)]⟩

/-- A target inventory with an internal identity-key collision. -/
def collisionTarget : DirectoryTree := ⟨"t", [("x.mkv", tgtXmkv), ("x.mp4", tgtXmp4)]⟩

/-- Witness for C10: two colliding target assets, one matching source asset;
no EXTRA item mentions either target path. -/
theorem C10_collision_consumed_witness :
    (WellFormed collisionTarget ∧
     ("x.mkv", tgtXmkv) ∈ collisionTarget.Assets ∧
     ("x.mp4", tgtXmp4) ∈ collisionTarget.Assets ∧
     makeIdentity "x.mkv" tgtXmkv.Stem = makeIdentity "x.mp4" tgtXmp4.Stem ∧
     ("x.avi", srcXavi) ∈ collisionSource.Assets ∧
     makeIdentity "x.avi" srcXavi.Stem = makeIdentity "x.mkv" tgtXmkv.Stem) ∧
    (∀ i ∈ (basicEngine.Diff collisionSource collisionTarget).Items,
      i.type = DiffType.Extra → i.Path ≠ tgtXmkv.Path ∧ i.Path ≠ tgtXmp4.Path) :=
  ⟨⟨by decide, by decide, by decide, by decide, by decide, by decide⟩,
   C10_collision_consumed basicEngine collisionSource collisionTarget (by decide)
     "x.mkv" "x.mp4" "x.avi" tgtXmkv tgtXmp4 srcXavi
     (by decide) (by decide) (by decide) (by decide) (by decide)⟩

/-- The directory asset of the C1 counterexample. -/
def dirD : Asset := { Path := "d", Stem := "d", Extension := "", Size := 0, IsDir := true }

/-- The descendant file of the C1 counterexample. -/
def fileDF : Asset := { Path := "d/f.mkv", Stem := "f", Extension := ".mkv", Size := 7, IsDir := false }

/-- A source inventory containing a non-empty directory (the directory entry
plus one descendant file), as the scanner records both. -/
def nonEmptyDirSource : DirectoryTree := ⟨"s", [("d", dirD), ("d/f.mkv", fileDF)]⟩

/-- An empty target inventory. -/
def emptyTarget : DirectoryTree := ⟨"t", []⟩

/-- Counterexample to C1 as stated: the directory `d` is a directory asset
with a descendant entry `d/f.mkv` in its inventory and is present only in
source, yet `Diff` emits a MISSING item whose path is the directory's own
relative path (in addition to the descendant's item) — the engine does not
exempt non-empty directories. -/
theorem C1_counterexample :
    dirD.IsDir = true ∧
    ("d", dirD) ∈ nonEmptyDirSource.Assets ∧
    ("d/f.mkv", fileDF) ∈ nonEmptyDirSource.Assets ∧
    (basicEngine.Diff nonEmptyDirSource emptyTarget).Items =
      [{ type := DiffType.Missing, Path := "d", SrcSize := 0 },
       { type := DiffType.Missing, Path := "d/f.mkv", SrcSize := 7 }] :=
  ⟨rfl, by decide, by decide, by decide⟩

/-- C1 (amended): the engine treats directory assets exactly like file
assets.  A directory present in only one inventory — whether empty or not —
whose identity key matches no entry of the other inventory yields exactly one
MISSING (source-only) or EXTRA (target-only) item whose path is the
directory's relative path; its descendants carry independent keys and are
evaluated independently. -/
theorem C1_directory_items (eng : Engine) (source target : DirectoryTree)
    (hwfs : WellFormed source) (hwft : WellFormed target)
    (p q : String) (a b : Asset)
    (hdira : a.IsDir = true) (hdirb : b.IsDir = true) :
    ((p, a) ∈ source.Assets →
      (∀ e ∈ target.Assets, makeIdentity e.1 e.2.Stem ≠ makeIdentity p a.Stem) →
      (eng.Diff source target).Items.countP
        (fun i => decide (i = { type := DiffType.Missing, Path := a.Path, SrcSize := a.Size })) = 1) ∧
    ((q, b) ∈ target.Assets →
      (∀ e ∈ source.Assets, makeIdentity e.1 e.2.Stem ≠ makeIdentity q b.Stem) →
      (eng.Diff source target).Items.countP
        (fun i => decide (i = { type := DiffType.Extra, Path := b.Path, TgtSize := b.Size })) = 1) :=
  ⟨fun hm hn => diff_missing_count_one eng source target hwfs hm hn,
   fun hm hn => diff_extra_count_one eng source target hwft hm hn⟩

/-- A source-only empty directory asset. -/
def dirOnlySrc : Asset := { Path := "ds", Stem := "ds", Extension := "", Size := 0, IsDir := true }

/-- A target-only empty directory asset. -/
def dirOnlyTgt : Asset := { Path := "dt", Stem := "dt", Extension := "", Size := 0, IsDir := true }

/-- A source inventory holding one directory. -/
def dirSource : DirectoryTree := ⟨"s", [("ds", dirOnlySrc)]⟩

/-- A target inventory holding one directory. -/
def dirTarget : DirectoryTree := ⟨"t", [("dt", dirOnlyTgt)]⟩

/-- Witness for the amended C1 on a source-only directory `ds` and a
target-only directory `dt`. -/
theorem C1_directory_items_witness :
    (WellFormed dirSource ∧ WellFormed dirTarget ∧
     dirOnlySrc.IsDir = true ∧ dirOnlyTgt.IsDir = true ∧
     ("ds", dirOnlySrc) ∈ dirSource.Assets ∧
     (∀ e ∈ dirTarget.Assets, makeIdentity e.1 e.2.Stem ≠ makeIdentity "ds" dirOnlySrc.Stem) ∧
     ("dt", dirOnlyTgt) ∈ dirTarget.Assets ∧
     (∀ e ∈ dirSource.Assets, makeIdentity e.1 e.2.Stem ≠ makeIdentity "dt" dirOnlyTgt.Stem)) ∧
    ((basicEngine.Diff dirSource dirTarget).Items.countP
        (fun i => decide (i = { type := DiffType.Missing, Path := dirOnlySrc.Path,
                                SrcSize := dirOnlySrc.Size })) = 1 ∧
     (basicEngine.Diff dirSource dirTarget).Items.countP
        (fun i => decide (i = { type := DiffType.Extra, Path := dirOnlyTgt.Path,
                                TgtSize := dirOnlyTgt.Size })) = 1) :=
  ⟨⟨by decide, by decide, rfl, rfl, by decide, by decide, by decide, by decide⟩,
   ((C1_directory_items basicEngine dirSource dirTarget (by decide) (by decide)
       "ds" "dt" dirOnlySrc dirOnlyTgt rfl rfl).1 (by decide) (by decide)),
   ((C1_directory_items basicEngine dirSource dirTarget (by decide) (by decide)
       "ds" "dt" dirOnlySrc dirOnlyTgt rfl rfl).2 (by decide) (by decide))⟩

/-!
Canonical path components.  The scanner derives stems from filename
components, and its relative paths are cleaned slash-joined sequences of
filename components; the identity-key injectivity claimed by the spec holds
on this canonical fragment (and, as the counterexamples below show, fails
outside it, e.g. for the empty stem a dotfile such as `.bashrc` gets).
-/

/-- A plain path segment: nonempty, not the current or parent directory
marker, and free of the separator. -/
def plainSeg (l : List Char) : Bool :=
  decide (l ≠ [] ∧ l ≠ ['.'] ∧ l ≠ ['.', '.'] ∧ '/' ∉ l)

/-- A canonical stem: a plain segment. -/
def canonStem (s : String) : Bool := plainSeg s.data

/-- A canonical parent directory: the current-directory marker, or a
slash-join of plain segments. -/
def canonDir (x : String) : Bool :=
  x == "." || (splitSlash x.data).all plainSeg

theorem plainSeg_iff {l : List Char} :
    plainSeg l = true ↔ l ≠ [] ∧ l ≠ ['.'] ∧ l ≠ ['.', '.'] ∧ '/' ∉ l := by
  simp [plainSeg]

theorem splitSlash_cons (c : Char) (cs : List Char) :
    splitSlash (c :: cs) =
      match splitSlash cs with
      | [] => [[]]
      | p :: ps => if c = '/' then [] :: p :: ps else (c :: p) :: ps := rfl

theorem splitSlash_ne_nil (l : List Char) : splitSlash l ≠ [] := by
  cases l with
  | nil => simp [splitSlash]
  | cons c cs =>
      rw [splitSlash_cons]
      cases splitSlash cs with
      | nil => simp
      | cons p ps =>
          show (if c = '/' then [] :: p :: ps else (c :: p) :: ps) ≠ []
          split <;> simp

theorem splitSlash_cons_slash (cs : List Char) :
    splitSlash ('/' :: cs) = [] :: splitSlash cs := by
  rw [splitSlash_cons]
  cases h : splitSlash cs with
  | nil => exact absurd h (splitSlash_ne_nil cs)
  | cons p ps => simp

theorem splitSlash_append (x y : List Char) :
    splitSlash (x ++ '/' :: y) = splitSlash x ++ splitSlash y := by
  induction x with
  | nil => rw [List.nil_append, splitSlash_cons_slash]; rfl
  | cons c cs ih =>
      rw [List.cons_append]
      by_cases hc : c = '/'
      · subst hc
        rw [splitSlash_cons_slash, splitSlash_cons_slash, ih, List.cons_append]
      · cases hcs : splitSlash cs with
        | nil => exact absurd hcs (splitSlash_ne_nil cs)
        | cons p ps =>
            rw [splitSlash_cons, ih, hcs, List.cons_append, splitSlash_cons, hcs]
            simp [hc]

theorem splitSlash_no_slash (l : List Char) (h : '/' ∉ l) : splitSlash l = [l] := by
  induction l with
  | nil => rfl
  | cons c cs ih =>
      have hc : c ≠ '/' := fun he => h (he ▸ List.mem_cons_self c cs)
      rw [splitSlash_cons, ih (fun hm => h (List.mem_cons_of_mem c hm))]
      simp [hc]

theorem joinSlash_cons_cons (p q : List Char) (ps : List (List Char)) :
    joinSlash (p :: q :: ps) = p ++ '/' :: joinSlash (q :: ps) := rfl

theorem joinSlash_cons_head (c : Char) (p : List Char) (ps : List (List Char)) :
    joinSlash ((c :: p) :: ps) = c :: joinSlash (p :: ps) := by
  cases ps <;> rfl

theorem joinSlash_splitSlash (l : List Char) : joinSlash (splitSlash l) = l := by
  induction l with
  | nil => rfl
  | cons c cs ih =>
      rw [splitSlash_cons]
      cases hcs : splitSlash cs with
      | nil => exact absurd hcs (splitSlash_ne_nil cs)
      | cons p ps =>
          show joinSlash (if c = '/' then [] :: p :: ps else (c :: p) :: ps) = c :: cs
          by_cases hc : c = '/'
          · subst hc
            rw [if_pos rfl, joinSlash_cons_cons, ← hcs, ih]
            rfl
          · rw [if_neg hc, joinSlash_cons_head, ← hcs, ih]

theorem joinSlash_append_last (xs : List (List Char)) (y : List Char) (hxs : xs ≠ []) :
    joinSlash (xs ++ [y]) = joinSlash xs ++ '/' :: y := by
  induction xs with
  | nil => exact absurd rfl hxs
  | cons p ps ih =>
      cases ps with
      | nil => rfl
      | cons q qs =>
          have ih2 := ih (by simp)
          simp only [List.cons_append] at ih2 ⊢
          rw [joinSlash_cons_cons, joinSlash_cons_cons, ih2]
          simp

theorem cleanStep_plain (rooted : Bool) (stack : List (List Char)) (c : List Char)
    (hc : plainSeg c = true) : cleanStep rooted stack c = c :: stack := by
  rcases plainSeg_iff.mp hc with ⟨h1, h2, h3, -⟩
  unfold cleanStep
  rw [if_neg (by simp [h1, h2]), if_neg h3]

theorem foldl_cleanStep_plain (rooted : Bool) :
    ∀ (comps stack : List (List Char)), comps.all plainSeg = true →
      comps.foldl (cleanStep rooted) stack = comps.reverse ++ stack
  | [], stack, _ => by simp
  | c :: comps, stack, h => by
      rw [List.all_cons, Bool.and_eq_true] at h
      rw [List.foldl_cons, cleanStep_plain rooted stack c h.1,
          foldl_cleanStep_plain rooted comps _ h.2]
      simp

theorem Clean_append_plain (d s : String)
    (hd : (splitSlash d.data).all plainSeg = true) (hs : plainSeg s.data = true) :
    Clean (d ++ "/" ++ s) = d ++ "/" ++ s := by
  have hsm : '/' ∉ s.data := (plainSeg_iff.mp hs).2.2.2
  have hslash : "/".data = ['/'] := rfl
  have hdata : (d ++ "/" ++ s).data = d.data ++ '/' :: s.data := by
    rw [String.data_append, String.data_append, hslash, List.append_assoc,
        List.singleton_append]
  have hdne : d.data ≠ [] := by
    intro h
    rw [h] at hd
    simp [splitSlash, plainSeg] at hd
  have hne : (d ++ "/" ++ s) ≠ "" := by
    intro h
    have h2 := congrArg String.data h
    rw [hdata] at h2
    simp at h2
  have hall : (splitSlash d.data ++ [s.data]).all plainSeg = true := by
    rw [List.all_append, hd]
    simpa using hs
  have hrooted : ((d.data ++ '/' :: s.data).head? == some '/') = false := by
    cases hdd : d.data with
    | nil => exact absurd hdd hdne
    | cons c cs =>
        simp only [List.cons_append, List.head?_cons]
        rw [beq_eq_false_iff_ne]
        intro h
        have hc : c = '/' := by injection h
        rw [hdd, hc, splitSlash_cons_slash, List.all_cons] at hd
        simp [plainSeg] at hd
  unfold Clean
  rw [if_neg hne]
  simp only [hdata, hrooted, Bool.false_eq_true, if_false]
  rw [splitSlash_append, splitSlash_no_slash s.data hsm,
      foldl_cleanStep_plain false _ _ hall, List.append_nil, List.reverse_reverse]
  rw [if_neg (by simp)]
  rw [joinSlash_append_last _ _ (splitSlash_ne_nil d.data), joinSlash_splitSlash]
  exact String.ext hdata.symm

theorem Join_plain (d s : String)
    (hd : (splitSlash d.data).all plainSeg = true) (hs : plainSeg s.data = true) :
    Join d s = d ++ "/" ++ s := by
  have hdne : d ≠ "" := by
    intro h
    rw [h] at hd
    simp [splitSlash, plainSeg] at hd
  unfold Join
  rw [if_pos hdne]
  exact Clean_append_plain d s hd hs

theorem canonDir_all {d : String} (h : canonDir d = true) (hne : d ≠ ".") :
    (splitSlash d.data).all plainSeg = true := by
  unfold canonDir at h
  rcases Bool.or_eq_true_iff.mp h with h | h
  · exact absurd (by simpa using h) hne
  · exact h

theorem append_slash_inj :
    ∀ (x y a b : List Char), '/' ∉ a → '/' ∉ b →
      x ++ '/' :: a = y ++ '/' :: b → x = y ∧ a = b
  | [], [], a, b, _, _, h => by
      injection h with h1 h2
      exact ⟨rfl, h2⟩
  | [], c :: y2, a, b, ha, _, h => by
      rw [List.nil_append, List.cons_append] at h
      injection h with h1 h2
      exact absurd (h2 ▸ (by simp : '/' ∈ y2 ++ '/' :: b)) ha
  | c :: x2, [], a, b, _, hb, h => by
      rw [List.nil_append, List.cons_append] at h
      injection h with h1 h2
      exact absurd (h2 ▸ (by simp : '/' ∈ x2 ++ '/' :: a)) hb
  | c :: x2, c2 :: y2, a, b, ha, hb, h => by
      rw [List.cons_append, List.cons_append] at h
      injection h with h1 h2
      rcases append_slash_inj x2 y2 a b ha hb h2 with ⟨hx, hab⟩
      exact ⟨by rw [h1, hx], hab⟩

/-- On canonical inputs, the identity key determines the (parent directory,
stem) pair. -/
theorem identity_inj (d1 s1 d2 s2 : String)
    (hd1 : canonDir d1 = true) (hd2 : canonDir d2 = true)
    (hs1 : canonStem s1 = true) (hs2 : canonStem s2 = true)
    (heq : (if d1 = "." then s1 else Join d1 s1) = (if d2 = "." then s2 else Join d2 s2)) :
    d1 = d2 ∧ s1 = s2 := by
  have hs1m : '/' ∉ s1.data := (plainSeg_iff.mp hs1).2.2.2
  have hs2m : '/' ∉ s2.data := (plainSeg_iff.mp hs2).2.2.2
  by_cases h1 : d1 = "." <;> by_cases h2 : d2 = "."
  · rw [if_pos h1, if_pos h2] at heq
    exact ⟨h1.trans h2.symm, heq⟩
  · rw [if_pos h1, if_neg h2, Join_plain d2 s2 (canonDir_all hd2 h2) hs2] at heq
    exfalso
    apply hs1m
    have h3 := congrArg String.data heq
    rw [String.data_append, String.data_append] at h3
    rw [h3]
    simp
  · rw [if_neg h1, if_pos h2, Join_plain d1 s1 (canonDir_all hd1 h1) hs1] at heq
    exfalso
    apply hs2m
    have h3 := congrArg String.data heq.symm
    rw [String.data_append, String.data_append] at h3
    rw [h3]
    simp
  · rw [if_neg h1, if_neg h2, Join_plain d1 s1 (canonDir_all hd1 h1) hs1,
        Join_plain d2 s2 (canonDir_all hd2 h2) hs2] at heq
    have h3 := congrArg String.data heq
    rw [String.data_append, String.data_append, String.data_append, String.data_append] at h3
    have h4 : d1.data ++ '/' :: s1.data = d2.data ++ '/' :: s2.data := by
      simpa using h3
    rcases append_slash_inj _ _ _ _ hs1m hs2m h4 with ⟨hd, hs⟩
    exact ⟨String.ext hd, String.ext hs⟩

/-- The dotfile asset of the identity-collision counterexamples: the scanner
gives `.bashrc` extension ".bashrc" and the empty stem. -/
def dotfileBashrc : Asset :=
  { Path := "a/.bashrc", Stem := "", Extension := ".bashrc", Size := 5, IsDir := false }

/-- A root-level extensionless file named `a`. -/
def fileA : Asset := { Path := "a", Stem := "a", Extension := "", Size := 5, IsDir := false }

/-- Source inventory containing only the file `a`. -/
def dotSource : DirectoryTree := ⟨"s", [("a", fileA)]⟩

/-- Target inventory containing only the dotfile `a/.bashrc`. -/
def dotTarget : DirectoryTree := ⟨"t", [("a/.bashrc", dotfileBashrc)]⟩

/-- Counterexample to C5 as stated: the cleaned paths `a/.bashrc` (stem "",
as the scanner derives for a dotfile) and `a` (stem "a") have different
(parent directory, stem) pairs — ("a", "") versus (".", "a") — yet the same
identity key "a", because joining "a" with the empty stem cleans to "a". -/
theorem C5_counterexample :
    Clean "a/.bashrc" = "a/.bashrc" ∧ Clean "a" = "a" ∧
    makeIdentity "a/.bashrc" "" = makeIdentity "a" "a" ∧
    ¬(Dir "a/.bashrc" = Dir "a" ∧ ("" : String) = "a") := by decide

/-- C5 (amended): `makeIdentity` returns the stem alone when the parent of
the path is ".", and otherwise the parent joined with the stem; restricted to
canonical inputs — stems that are plain filename segments (nonempty, not "."
or "..", separator-free, which excludes the empty stem of a dotfile) and
parent directories that are "." or slash-joins of plain segments — two assets
have equal identity keys exactly when their (parent directory, stem) pairs
are equal. -/
theorem C5_identity_key (p1 s1 p2 s2 : String) :
    makeIdentity p1 s1 = (if Dir p1 = "." then s1 else Join (Dir p1) s1) ∧
    (canonStem s1 = true → canonStem s2 = true →
      canonDir (Dir p1) = true → canonDir (Dir p2) = true →
      (makeIdentity p1 s1 = makeIdentity p2 s2 ↔ (Dir p1 = Dir p2 ∧ s1 = s2))) := by
  refine ⟨rfl, fun hs1 hs2 hd1 hd2 => ⟨?_, ?_⟩⟩
  · intro heq
    exact identity_inj (Dir p1) s1 (Dir p2) s2 hd1 hd2 hs1 hs2 heq
  · rintro ⟨hd, hs⟩
    unfold makeIdentity
    rw [hd, hs]

/-- Witness for the amended C5 on the paths `d/x.mkv` and `d/y.mkv`. -/
theorem C5_identity_key_witness :
    (canonStem "x" = true ∧ canonStem "y" = true ∧
     canonDir (Dir "d/x.mkv") = true ∧ canonDir (Dir "d/y.mkv") = true) ∧
    (makeIdentity "d/x.mkv" "x" =
        (if Dir "d/x.mkv" = "." then "x" else Join (Dir "d/x.mkv") "x") ∧
     (makeIdentity "d/x.mkv" "x" = makeIdentity "d/y.mkv" "y" ↔
        (Dir "d/x.mkv" = Dir "d/y.mkv" ∧ "x" = "y"))) :=
  ⟨⟨by decide, by decide, by decide, by decide⟩,
   (C5_identity_key "d/x.mkv" "x" "d/y.mkv" "y").1,
   (C5_identity_key "d/x.mkv" "x" "d/y.mkv" "y").2 (by decide) (by decide)
     (by decide) (by decide)⟩

/-- Counterexample to C6 as stated: the source file `a` and the target
dotfile `a/.bashrc` have different (parent directory, stem) pairs, yet their
identity keys coincide, so `Diff` matches them and emits a MODIFIED item for
the pair. -/
theorem C6_counterexample :
    (Dir "a", fileA.Stem) ≠ (Dir "a/.bashrc", dotfileBashrc.Stem) ∧
    (basicEngine.Diff dotSource dotTarget).Items =
      [{ type := DiffType.Modified, Path := "a", Reason := "Extension changed:  -> .bashrc",
         SrcSize := 5, TgtSize := 5 }] := by decide

/-- C6 (amended): for assets with canonical stems and parent directories
(plain filename segments; directories that are "." or slash-joins of plain
segments), a source asset and a target asset whose (parent directory, stem)
pairs differ have different identity keys and are therefore never matched;
a source asset whose identity key matches no target entry yields exactly one
MISSING item carrying the source path and source size, and a target asset
whose identity key matches no source entry yields exactly one EXTRA item
carrying the target path and target size. -/
theorem C6_identity_independence (eng : Engine) (source target : DirectoryTree)
    (hwfs : WellFormed source) (hwft : WellFormed target)
    (p q : String) (a b : Asset)
    (hmems : (p, a) ∈ source.Assets) (hmemt : (q, b) ∈ target.Assets)
    (hcs : canonStem a.Stem = true) (hct : canonStem b.Stem = true)
    (hcds : canonDir (Dir p) = true) (hcdt : canonDir (Dir q) = true)
    (hpairs : Dir p ≠ Dir q ∨ a.Stem ≠ b.Stem) :
    makeIdentity p a.Stem ≠ makeIdentity q b.Stem ∧
    ((∀ e ∈ target.Assets, makeIdentity e.1 e.2.Stem ≠ makeIdentity p a.Stem) →
      (eng.Diff source target).Items.countP
        (fun i => decide (i = { type := DiffType.Missing, Path := a.Path,
                                SrcSize := a.Size })) = 1) ∧
    ((∀ e ∈ source.Assets, makeIdentity e.1 e.2.Stem ≠ makeIdentity q b.Stem) →
      (eng.Diff source target).Items.countP
        (fun i => decide (i = { type := DiffType.Extra, Path := b.Path,
                                TgtSize := b.Size })) = 1) := by
  refine ⟨?_, fun hn => diff_missing_count_one eng source target hwfs hmems hn,
          fun hn => diff_extra_count_one eng source target hwft hmemt hn⟩
  intro heq
  rcases identity_inj (Dir p) a.Stem (Dir q) b.Stem hcds hcdt hcs hct heq with ⟨hd, hs⟩
  rcases hpairs with h | h
  · exact h hd
  · exact h hs

/-- The source asset of the spec's strict-naming example. -/
def movie2000 : Asset :=
  { Path := "Movie (2000).mkv", Stem := "Movie (2000)", Extension := ".mkv", Size := 9,
    IsDir := false }

/-- The target asset of the spec's strict-naming example. -/
def movieMp4 : Asset :=
  { Path := "Movie.mp4", Stem := "Movie", Extension := ".mp4", Size := 9, IsDir := false }

/-- Source inventory of the strict-naming example. -/
def movieSource : DirectoryTree := ⟨"s", [("Movie (2000).mkv", movie2000)]⟩

/-- Target inventory of the strict-naming example. -/
def movieTarget : DirectoryTree := ⟨"t", [("Movie.mp4", movieMp4)]⟩

/-- Witness for the amended C6 on the spec's `Movie (2000).mkv` versus
`Movie.mp4` example: one MISSING and one EXTRA item, never a match. -/
theorem C6_identity_independence_witness :
    (WellFormed movieSource ∧ WellFormed movieTarget ∧
     ("Movie (2000).mkv", movie2000) ∈ movieSource.Assets ∧
     ("Movie.mp4", movieMp4) ∈ movieTarget.Assets ∧
     canonStem movie2000.Stem = true ∧ canonStem movieMp4.Stem = true ∧
     canonDir (Dir "Movie (2000).mkv") = true ∧ canonDir (Dir "Movie.mp4") = true ∧
     (Dir "Movie (2000).mkv" ≠ Dir "Movie.mp4" ∨ movie2000.Stem ≠ movieMp4.Stem)) ∧
    (makeIdentity "Movie (2000).mkv" movie2000.Stem ≠
        makeIdentity "Movie.mp4" movieMp4.Stem ∧
     (basicEngine.Diff movieSource movieTarget).Items.countP
        (fun i => decide (i = { type := DiffType.Missing, Path := movie2000.Path,
                                SrcSize := movie2000.Size })) = 1 ∧
     (basicEngine.Diff movieSource movieTarget).Items.countP
        (fun i => decide (i = { type := DiffType.Extra, Path := movieMp4.Path,
                                TgtSize := movieMp4.Size })) = 1) :=
  ⟨⟨by decide, by decide, by decide, by decide, by decide, by decide, by decide, by decide,
    by decide⟩,
   (C6_identity_independence basicEngine movieSource movieTarget (by decide) (by decide)
      "Movie (2000).mkv" "Movie.mp4" movie2000 movieMp4 (by decide) (by decide)
      (by decide) (by decide) (by decide) (by decide) (by decide)).1,
   (C6_identity_independence basicEngine movieSource movieTarget (by decide) (by decide)
      "Movie (2000).mkv" "Movie.mp4" movie2000 movieMp4 (by decide) (by decide)
      (by decide) (by decide) (by decide) (by decide) (by decide)).2.1 (by decide),
   (C6_identity_independence basicEngine movieSource movieTarget (by decide) (by decide)
      "Movie (2000).mkv" "Movie.mp4" movie2000 movieMp4 (by decide) (by decide)
      (by decide) (by decide) (by decide) (by decide) (by decide)).2.2 (by decide)⟩
